import Mathlib

/-!
Shallow embedding of lloesche/dblock (dblock/dblock.go): a schema-upgrade
coordinator that serializes a one-time database migration across service
instances using a Postgres advisory lock, with a version double-check after
acquisition and a bounded polling loop for instances that lose the race.

Modelling conventions:
* time is measured in nanoseconds (Go time.Duration); the model clock advances
  only at time.Sleep, queries take zero model time;
* the database is a `World`: the persisted schema_version row (`ver`, `none`
  while the row does not exist yet), a counter of getSchemaVersion calls, the
  clock, and a trace of the effects this call performs;
* `Env` supplies the external nondeterminism: per-read query failures, writes
  committed by peer instances (`interfere`, applied at the start of each
  read), the advisory-lock outcome, and the transaction outcomes.
-/

/-- Error kinds, one per `logErrorf` site in dblock.go. -/
inductive Err where
  | versionInitError
  | versionReadError
  | lockCheckError
  | lockHeldError
  | beginTxError
  | upgradeExecError
  | versionUpdateError
  | commitError
  | timeoutError
deriving DecidableEq, Repr

/-- Observable effects of one UpgradeIfNeeded call, recorded in order. -/
inductive Effect where
  | getVersion
  | tryLock (lockID : Int)
  | unlock (lockID : Int)
  | beginTx
  | runCallback
  | writeVersion (v : Int)
  | commit
  | rollback
  | sleep (d : Int)
deriving DecidableEq, Repr

/-- The database plus the call's clock and effect trace. -/
structure World where
  ver : Option Int
  reads : Nat
  time : Int
  trace : List Effect
deriving DecidableEq, Repr

/-- External nondeterminism: query failures (indexed by the read counter),
peer writes visible at each read, lock outcome, transaction outcomes. -/
structure Env where
  initFails : Nat → Bool
  readFails : Nat → Bool
  interfere : Nat → Option Int → Option Int
  lockQueryFails : Bool
  lockFree : Bool
  beginFails : Bool
  callbackOk : Bool
  updateFails : Bool
  commitFails : Bool

/-- Go's time.Second in nanoseconds. -/
def second : Int := 1000000000

/-- dblock.go line 11: baseLockID = 6877. -/
def baseLockID : Int := 6877

/-- dblock.go line 12: checkInterval = 5 * time.Second. -/
def checkInterval : Int := 5 * second

/-- dblock.go lines 71-89: create/seed the schema_version row if absent
(the multi-statement Exec), then SELECT the version. Peer writes committed
before this read are applied first; either statement may fail. -/
def getSchemaVersion (env : Env) (w : World) : Except Err Int × World :=
  let i := w.reads
  let w1 : World :=
    { w with ver := env.interfere i w.ver, reads := i + 1,
             trace := w.trace ++ [Effect.getVersion] }
  if env.initFails i then
    (Except.error Err.versionInitError, w1)
  else
    let w2 : World := { w1 with ver := some (w1.ver.getD 0) }
    if env.readFails i then
      (Except.error Err.versionReadError, w2)
    else
      (Except.ok (w2.ver.getD 0), w2)

/-- dblock.go lines 114-124: SELECT pg_try_advisory_lock. The query itself
may fail; a held lock is also reported as an error ("Advisory lock is
already held by another process!"). -/
def acquireAdvisoryLock (env : Env) (lockID : Int) (w : World) :
    Except Err Unit × World :=
  let w1 : World := { w with trace := w.trace ++ [Effect.tryLock lockID] }
  if env.lockQueryFails then
    (Except.error Err.lockCheckError, w1)
  else if !env.lockFree then
    (Except.error Err.lockHeldError, w1)
  else
    (Except.ok (), w1)

/-- dblock.go lines 126-132: SELECT pg_advisory_unlock; the caller discards
the result (deferred, best effort). -/
def releaseAdvisoryLock (lockID : Int) (w : World) : World :=
  { w with trace := w.trace ++ [Effect.unlock lockID] }

/-- dblock.go lines 91-112: Begin; run the caller's upgradeFunc inside the
transaction; UPDATE schema_version to newVersion in the same transaction;
Commit. Any failure rolls back, so the persisted `ver` changes only on a
successful commit. -/
def upgradeSchema (env : Env) (newVersion : Int) (w : World) :
    Except Err Unit × World :=
  if env.beginFails then
    (Except.error Err.beginTxError, w)
  else
    let w1 : World := { w with trace := w.trace ++ [Effect.beginTx, Effect.runCallback] }
    if !env.callbackOk then
      (Except.error Err.upgradeExecError, { w1 with trace := w1.trace ++ [Effect.rollback] })
    else if env.updateFails then
      (Except.error Err.versionUpdateError, { w1 with trace := w1.trace ++ [Effect.rollback] })
    else
      let w2 : World := { w1 with trace := w1.trace ++ [Effect.writeVersion newVersion] }
      if env.commitFails then
        (Except.error Err.commitError, w2)
      else
        (Except.ok (), { w2 with ver := some newVersion, trace := w2.trace ++ [Effect.commit] })

/-- dblock.go lines 30-45: the peer-wait loop. `deadline` was computed by the
caller as now + timeout; each iteration sleeps checkInterval, then performs
one getSchemaVersion read; a read failure propagates immediately; reaching
the target returns success; running past the deadline returns the timeout
error. -/
def waitLoop (env : Env) (targetVersion deadline : Int) (w : World) :
    Except Err Unit × World :=
  if h : w.time < deadline then
    let w1 : World :=
      { w with time := w.time + checkInterval,
               trace := w.trace ++ [Effect.sleep checkInterval] }
    match h2 : getSchemaVersion env w1 with
    | (Except.error e, w2) => (Except.error e, w2)
    | (Except.ok latestVersion, w2) =>
      if latestVersion ≥ targetVersion then
        (Except.ok (), w2)
      else
        waitLoop env targetVersion deadline w2
  else
    (Except.error Err.timeoutError, w)
termination_by (deadline - w.time).toNat
decreasing_by
  have ht : w2.time = w.time + checkInterval := by
    have h3 : (getSchemaVersion env
        { w with time := w.time + checkInterval,
                 trace := w.trace ++ [Effect.sleep checkInterval] }).2.time =
        w.time + checkInterval := by
      unfold getSchemaVersion
      dsimp only
      split
      · rfl
      · split
        · rfl
        · rfl
    rw [h2] at h3
    exact h3
  have hci : checkInterval = 5000000000 := by norm_num [checkInterval, second]
  omega

/-- dblock.go lines 15-69: the coordinator. Read the version; return success
if already at/past target; otherwise try the advisory lock (lockID =
baseLockID + targetVersion). On any acquisition error, wait for a peer with
the polling loop. With the lock held, re-read (double check), and either
return success or run upgradeSchema; the deferred release runs on every exit
path after acquisition. -/
def UpgradeIfNeeded (env : Env) (targetVersion timeout : Int) (w : World) :
    Except Err Unit × World :=
  match getSchemaVersion env w with
  | (Except.error e, w1) => (Except.error e, w1)
  | (Except.ok currentVersion, w1) =>
    if currentVersion ≥ targetVersion then
      (Except.ok (), w1)
    else
      let lockID := baseLockID + targetVersion
      match acquireAdvisoryLock env lockID w1 with
      | (Except.error _, w2) =>
        waitLoop env targetVersion (w2.time + timeout) w2
      | (Except.ok _, w2) =>
        match getSchemaVersion env w2 with
        | (Except.error e, w3) => (Except.error e, releaseAdvisoryLock lockID w3)
        | (Except.ok latestVersion, w3) =>
          if latestVersion ≥ targetVersion then
            (Except.ok (), releaseAdvisoryLock lockID w3)
          else
            match upgradeSchema env targetVersion w3 with
            | (Except.error e, w4) => (Except.error e, releaseAdvisoryLock lockID w4)
            | (Except.ok _, w4) => (Except.ok (), releaseAdvisoryLock lockID w4)

/-! ### Shared concrete inputs for witnesses and counterexamples -/

/-- Failure-free environment with no peer interference. -/
def envOK : Env :=
  { initFails := fun _ => false, readFails := fun _ => false,
    interfere := fun _ s => s, lockQueryFails := false, lockFree := true,
    beginFails := false, callbackOk := true, updateFails := false,
    commitFails := false }

/-- A fresh database at schema version 0. -/
def w0 : World := { ver := some 0, reads := 0, time := 0, trace := [] }

/-! ### C4: the fast path -/

/-- Contended environment for the C6 witness: lock never free, peers keep
the version at 0. -/
def envContended : Env :=
  { envOK with lockFree := false, interfere := fun _ _ => some 0 }

/-- Environment for the C7 witness: peers hold the version at 0 and the
second poll read (read counter 2) fails. -/
def envReadFail : Env :=
  { envOK with lockFree := false, interfere := fun _ _ => some 0,
               readFails := fun i => i == 2 }

/-- A sequence of UpgradeIfNeeded calls, each with its own environment,
target and timeout, threaded through the same database. -/
def runCalls (calls : List (Env × Int × Int)) (w : World) : World :=
  calls.foldl (fun wa c => (UpgradeIfNeeded c.1 c.2.1 c.2.2 wa).2) w

/-- Protocol position of one instance inside UpgradeIfNeeded. -/
inductive Phase where
  | start
  | tryLock
  | doubleCheck
  | upgrading
  | waiting
  | done (ok : Bool)
deriving DecidableEq, Repr

/-- One instance: its phase and how many times it has entered the
migration-callback body. -/
structure Inst where
  phase : Phase
  runs : Nat
deriving DecidableEq, Repr

/-- Shared database state plus all instances. -/
structure SysState where
  ver : Int
  lockHolder : Option Nat
  insts : Nat → Inst

/-- One atomic protocol step of instance i, mirroring UpgradeIfNeeded:
the initial read (start), the non-blocking pg_try_advisory_lock attempt
(tryLock), the re-read under the lock (doubleCheck), the callback body
followed by the version UPDATE and Commit (upgrading), and one poll read of
the wait loop (waiting). In the upgrading step, cbOk i is the outcome of
instance i's migration callback and txOk i the outcome of the rest of its
transaction (the schema_version UPDATE and the Commit, dblock.go lines
102-109): the version becomes the target only when both succeed; a failure
of either rolls back, leaves the version unchanged, and still releases the
lock via the deferred release. -/
def stepInst (target : Int) (cbOk txOk : Nat → Bool) (s : SysState) (i : Nat) :
    SysState :=
  let inst := s.insts i
  match inst.phase with
  | Phase.start =>
    if target ≤ s.ver then
      { s with
        insts := Function.update s.insts i { inst with phase := Phase.done true } }
    else
      { s with
        insts := Function.update s.insts i { inst with phase := Phase.tryLock } }
  | Phase.tryLock =>
    if s.lockHolder = none then
      { s with
        lockHolder := some i,
        insts := Function.update s.insts i { inst with phase := Phase.doubleCheck } }
    else
      { s with
        insts := Function.update s.insts i { inst with phase := Phase.waiting } }
  | Phase.doubleCheck =>
    if target ≤ s.ver then
      { s with
        lockHolder := none,
        insts := Function.update s.insts i { inst with phase := Phase.done true } }
    else
      { s with
        insts := Function.update s.insts i
          { phase := Phase.upgrading, runs := inst.runs + 1 } }
  | Phase.upgrading =>
    if cbOk i then
      if txOk i then
        { s with
          ver := target,
          lockHolder := none,
          insts := Function.update s.insts i { inst with phase := Phase.done true } }
      else
        { s with
          lockHolder := none,
          insts := Function.update s.insts i { inst with phase := Phase.done false } }
    else
      { s with
        lockHolder := none,
        insts := Function.update s.insts i { inst with phase := Phase.done false } }
  | Phase.waiting =>
    if target ≤ s.ver then
      { s with
        insts := Function.update s.insts i { inst with phase := Phase.done true } }
    else
      s
  | Phase.done _ => s

/-- The wait-side deadline of instance i elapsing (TimeoutError). -/
def timeoutInst (s : SysState) (i : Nat) : SysState :=
  match (s.insts i).phase with
  | Phase.waiting =>
    { s with
      insts := Function.update s.insts i { s.insts i with phase := Phase.done false } }
  | _ => s

/-- A scheduler event: one protocol step of an instance, or its poll
deadline elapsing. -/
inductive Event where
  | run (i : Nat)
  | timeout (i : Nat)

/-- Run a whole schedule. -/
def runSched (target : Int) (cbOk txOk : Nat → Bool) :
    List Event → SysState → SysState
  | [], s => s
  | Event.run i :: es, s =>
    runSched target cbOk txOk es (stepInst target cbOk txOk s i)
  | Event.timeout i :: es, s => runSched target cbOk txOk es (timeoutInst s i)

/-- All instances at the start of UpgradeIfNeeded, version v committed,
advisory lock free. -/
def initSys (v : Int) : SysState :=
  { ver := v, lockHolder := none,
    insts := fun _ => { phase := Phase.start, runs := 0 } }

/-- The advisory lock invariant: an instance between successful acquisition
and release holds the lock. -/
def MutexInv (s : SysState) : Prop :=
  ∀ i, ((s.insts i).phase = Phase.doubleCheck ∨
        (s.insts i).phase = Phase.upgrading) →
    s.lockHolder = some i

/-- Callback-counting invariant (used when every upgrade attempt that runs
the callback also commits). -/
def OnceInv (target : Int) (s : SysState) : Prop :=
  (∀ i, (s.insts i).runs ≤ 1) ∧
  (∀ i j, i ≠ j → (s.insts i).runs = 0 ∨ (s.insts j).runs = 0) ∧
  (∀ i, (s.insts i).runs = 1 →
    target ≤ s.ver ∨ (s.insts i).phase = Phase.upgrading)

/-- Callback outcomes for the C9 counterexample, first run: instance 0's
callback fails, every other one succeeds. -/
def ceCbOk : Nat → Bool := fun i => i != 0

/-- Transaction outcomes for the C9 counterexample, second run: every
callback succeeds, but instance 0's version UPDATE/Commit fails
(dblock.go lines 102-109), so its transaction rolls back anyway. -/
def ceTxOk : Nat → Bool := fun i => i != 0

/-- Interleaving for the C9 counterexample. Both instances call
UpgradeIfNeeded concurrently (instance 1 performs its initial read while
instance 0 is still running): instance 0 reads 0 < 1, acquires the lock,
double-checks 0 < 1 and runs the callback, but its upgrade attempt fails
(in one run because the callback errors, in the other because the version
UPDATE/Commit errors after a successful callback), so it rolls back and
releases; instance 1, whose initial read also saw 0 < 1, then acquires the
freed lock, double-checks 0 < 1 (the rollback left the version at 0) and
runs the callback a second time. -/
def ceEvents : List Event :=
  [Event.run 0, Event.run 1, Event.run 0, Event.run 0, Event.run 0,
   Event.run 1, Event.run 1]

/-! ### Theorems -/

theorem getSchemaVersion_time (env : Env) (w : World) :
    (getSchemaVersion env w).2.time = w.time := by
  unfold getSchemaVersion
  dsimp only
  split
  · rfl
  · split
    · rfl
    · rfl

/-- C4: whenever the initially read current version is at least the target,
UpgradeIfNeeded returns success at once; the resulting world shows that the
only effect is the single version read (no lock attempt, no callback, no
version write: the version cell merely holds the value just read). -/
theorem upgradeIfNeeded_fast_path (env : Env) (targetVersion timeout : Int)
    (w : World)
    (h1 : env.initFails w.reads = false) (h2 : env.readFails w.reads = false)
    (hv : (env.interfere w.reads w.ver).getD 0 ≥ targetVersion) :
    UpgradeIfNeeded env targetVersion timeout w =
      (Except.ok (),
       { w with ver := some ((env.interfere w.reads w.ver).getD 0),
                reads := w.reads + 1,
                trace := w.trace ++ [Effect.getVersion] }) := by
  unfold UpgradeIfNeeded getSchemaVersion
  simp [h1, h2, hv]

/-- C4 witness: version 3, target 1. -/
theorem upgradeIfNeeded_fast_path_witness :
    UpgradeIfNeeded envOK 1 0 { ver := some 3, reads := 0, time := 0, trace := [] } =
      (Except.ok (),
       { ver := some 3, reads := 1, time := 0, trace := [Effect.getVersion] }) :=
  upgradeIfNeeded_fast_path envOK 1 0
    { ver := some 3, reads := 0, time := 0, trace := [] } rfl rfl (by norm_num [envOK])

/-! ### C5: the double-check path -/

/-- C5: if the first read is below the target, the advisory lock is acquired,
and the re-read under the lock already meets the target, UpgradeIfNeeded
returns success; the final world shows no callback ran and no version write
happened (only: read, lock, read, unlock), and the lock was released. -/
theorem upgradeIfNeeded_double_check (env : Env) (targetVersion timeout : Int)
    (w : World) (v0 v1 : Int)
    (h1 : env.initFails w.reads = false) (h2 : env.readFails w.reads = false)
    (hv0 : (env.interfere w.reads w.ver).getD 0 = v0)
    (hlt : v0 < targetVersion)
    (hq : env.lockQueryFails = false) (hfree : env.lockFree = true)
    (h3 : env.initFails (w.reads + 1) = false)
    (h4 : env.readFails (w.reads + 1) = false)
    (hv1 : (env.interfere (w.reads + 1) (some v0)).getD 0 = v1)
    (hge : v1 ≥ targetVersion) :
    UpgradeIfNeeded env targetVersion timeout w =
      (Except.ok (),
       { w with ver := some v1, reads := w.reads + 2,
                trace := w.trace ++
                  [Effect.getVersion, Effect.tryLock (baseLockID + targetVersion),
                   Effect.getVersion, Effect.unlock (baseLockID + targetVersion)] }) := by
  unfold UpgradeIfNeeded getSchemaVersion acquireAdvisoryLock releaseAdvisoryLock
  simp [h1, h2, h3, h4, hq, hfree, hv0, hv1, hge, not_le.mpr hlt]

/-- C5 witness: first read 0, a peer commits 1 before the re-read. -/
theorem upgradeIfNeeded_double_check_witness :
    UpgradeIfNeeded
      { envOK with interfere := fun i s => if i = 1 then some 1 else s } 1 0 w0 =
      (Except.ok (),
       { ver := some 1, reads := 2, time := 0,
         trace := [Effect.getVersion, Effect.tryLock 6878,
                   Effect.getVersion, Effect.unlock 6878] }) :=
  upgradeIfNeeded_double_check
    { envOK with interfere := fun i s => if i = 1 then some 1 else s } 1 0 w0 0 1
    rfl rfl rfl (by norm_num) rfl rfl rfl rfl rfl (by norm_num)

/-! ### C2: callback failure rolls back -/

/-- C2: when the migration callback fails, UpgradeIfNeeded returns the
callback-failure error (Go: "Failed to modify schema: ..."); the final world
shows the transaction was rolled back (no commit, no surviving version
write: `ver` still holds the value the double check read) and the advisory
lock was released. -/
theorem upgradeIfNeeded_callback_failure (env : Env) (targetVersion timeout : Int)
    (w : World) (v0 v1 : Int)
    (h1 : env.initFails w.reads = false) (h2 : env.readFails w.reads = false)
    (hv0 : (env.interfere w.reads w.ver).getD 0 = v0)
    (hlt : v0 < targetVersion)
    (hq : env.lockQueryFails = false) (hfree : env.lockFree = true)
    (h3 : env.initFails (w.reads + 1) = false)
    (h4 : env.readFails (w.reads + 1) = false)
    (hv1 : (env.interfere (w.reads + 1) (some v0)).getD 0 = v1)
    (hlt1 : v1 < targetVersion)
    (hbegin : env.beginFails = false) (hcb : env.callbackOk = false) :
    UpgradeIfNeeded env targetVersion timeout w =
      (Except.error Err.upgradeExecError,
       { w with ver := some v1, reads := w.reads + 2,
                trace := w.trace ++
                  [Effect.getVersion, Effect.tryLock (baseLockID + targetVersion),
                   Effect.getVersion, Effect.beginTx, Effect.runCallback,
                   Effect.rollback, Effect.unlock (baseLockID + targetVersion)] }) := by
  unfold UpgradeIfNeeded getSchemaVersion acquireAdvisoryLock upgradeSchema
    releaseAdvisoryLock
  simp [h1, h2, h3, h4, hq, hfree, hv0, hv1, hbegin, hcb,
    not_le.mpr hlt, not_le.mpr hlt1]

/-- C2 witness: version 0, target 1, failing callback: the call returns the
callback error, the persisted version is still 0, the lock was released. -/
theorem upgradeIfNeeded_callback_failure_witness :
    UpgradeIfNeeded { envOK with callbackOk := false } 1 0 w0 =
      (Except.error Err.upgradeExecError,
       { ver := some 0, reads := 2, time := 0,
         trace := [Effect.getVersion, Effect.tryLock 6878, Effect.getVersion,
                   Effect.beginTx, Effect.runCallback, Effect.rollback,
                   Effect.unlock 6878] }) :=
  upgradeIfNeeded_callback_failure { envOK with callbackOk := false } 1 0 w0 0 0
    rfl rfl rfl (by norm_num) rfl rfl rfl rfl rfl (by norm_num) rfl rfl

/-! ### C3: the self-upgrade path -/

/-- C3: with the lock held and the double check still below the target,
UpgradeIfNeeded opens one transaction, runs the callback inside it, then
writes the target version in the same transaction, then commits (the trace
records exactly that order); the persisted version afterwards is exactly the
target and the call returns success. -/
theorem upgradeIfNeeded_self_upgrade (env : Env) (targetVersion timeout : Int)
    (w : World) (v0 v1 : Int)
    (h1 : env.initFails w.reads = false) (h2 : env.readFails w.reads = false)
    (hv0 : (env.interfere w.reads w.ver).getD 0 = v0)
    (hlt : v0 < targetVersion)
    (hq : env.lockQueryFails = false) (hfree : env.lockFree = true)
    (h3 : env.initFails (w.reads + 1) = false)
    (h4 : env.readFails (w.reads + 1) = false)
    (hv1 : (env.interfere (w.reads + 1) (some v0)).getD 0 = v1)
    (hlt1 : v1 < targetVersion)
    (hbegin : env.beginFails = false) (hcb : env.callbackOk = true)
    (hupd : env.updateFails = false) (hcommit : env.commitFails = false) :
    UpgradeIfNeeded env targetVersion timeout w =
      (Except.ok (),
       { w with ver := some targetVersion, reads := w.reads + 2,
                trace := w.trace ++
                  [Effect.getVersion, Effect.tryLock (baseLockID + targetVersion),
                   Effect.getVersion, Effect.beginTx, Effect.runCallback,
                   Effect.writeVersion targetVersion, Effect.commit,
                   Effect.unlock (baseLockID + targetVersion)] }) := by
  unfold UpgradeIfNeeded getSchemaVersion acquireAdvisoryLock upgradeSchema
    releaseAdvisoryLock
  simp [h1, h2, h3, h4, hq, hfree, hv0, hv1, hbegin, hcb, hupd, hcommit,
    not_le.mpr hlt, not_le.mpr hlt1]

/-- C3 witness: version 0, target 1, one instance, everything succeeds:
the callback runs once inside the transaction, the version becomes 1,
the call returns success. -/
theorem upgradeIfNeeded_self_upgrade_witness :
    UpgradeIfNeeded envOK 1 0 w0 =
      (Except.ok (),
       { ver := some 1, reads := 2, time := 0,
         trace := [Effect.getVersion, Effect.tryLock 6878, Effect.getVersion,
                   Effect.beginTx, Effect.runCallback, Effect.writeVersion 1,
                   Effect.commit, Effect.unlock 6878] }) :=
  upgradeIfNeeded_self_upgrade envOK 1 0 w0 0 0
    rfl rfl rfl (by norm_num) rfl rfl rfl rfl rfl (by norm_num) rfl rfl rfl rfl

/-! ### C1: contention versus lock-check failure -/

theorem getSchemaVersion_congr (env1 env2 : Env) (w : World)
    (hi : env1.initFails = env2.initFails)
    (hr : env1.readFails = env2.readFails)
    (hf : env1.interfere = env2.interfere) :
    getSchemaVersion env1 w = getSchemaVersion env2 w := by
  unfold getSchemaVersion
  rw [hi, hr, hf]

theorem waitLoop_congr (env1 env2 : Env) (targetVersion deadline : Int)
    (hi : env1.initFails = env2.initFails)
    (hr : env1.readFails = env2.readFails)
    (hf : env1.interfere = env2.interfere) (w : World) :
    waitLoop env1 targetVersion deadline w =
      waitLoop env2 targetVersion deadline w := by
  suffices hs : ∀ (n : Nat) (w : World), (deadline - w.time).toNat = n →
      waitLoop env1 targetVersion deadline w =
        waitLoop env2 targetVersion deadline w from hs _ w rfl
  intro n
  induction n using Nat.strong_induction_on with
  | _ n ih =>
    intro w hn
    conv_lhs => rw [waitLoop]
    conv_rhs => rw [waitLoop]
    by_cases h : w.time < deadline
    · simp only [dif_pos h]
      rw [getSchemaVersion_congr env1 env2 _ hi hr hf]
      cases hg : getSchemaVersion env2
          { w with time := w.time + checkInterval,
                   trace := w.trace ++ [Effect.sleep checkInterval] } with
      | mk res w2 =>
        cases res with
        | error e => rfl
        | ok v =>
          dsimp only
          by_cases hv : v ≥ targetVersion
          · simp [hv]
          · simp only [ge_iff_le, not_le.mp hv, if_neg, not_le]
            have ht : w2.time = w.time + checkInterval := by
              have h3 := getSchemaVersion_time env2
                { w with time := w.time + checkInterval,
                         trace := w.trace ++ [Effect.sleep checkInterval] }
              rw [hg] at h3
              exact h3
            have hci : checkInterval = 5000000000 := by
              norm_num [checkInterval, second]
            exact ih _ (by omega) w2 rfl
    · simp only [dif_neg h]

/-- C1 counterexample: (i) when another session holds the advisory lock,
acquireAdvisoryLock returns an error (Go line 121), not a non-error false;
(ii) when the lock-check query itself fails, UpgradeIfNeeded does not fail
with the lock-check error: it enters the peer-wait loop and (here, with a
zero timeout) returns the timeout error. -/
theorem lock_contention_counterexample :
    (acquireAdvisoryLock { envOK with lockFree := false } 6878 w0).1 =
      Except.error Err.lockHeldError ∧
    (UpgradeIfNeeded { envOK with lockQueryFails := true } 1 0 w0).1 =
      Except.error Err.timeoutError := by
  constructor
  · rfl
  · simp only [UpgradeIfNeeded, getSchemaVersion, acquireAdvisoryLock]
    norm_num [envOK, w0]
    rw [waitLoop]
    norm_num

/-- C1 amended: lock contention and lock-check failure are both reported as
errors by acquireAdvisoryLock, and UpgradeIfNeeded does not distinguish
them: a run whose lock-check query fails is indistinguishable from a run
whose lock is merely held by a peer, so a query failure also leads into the
peer-wait loop instead of failing with the lock-check error. -/
theorem lock_error_treated_as_contention (env : Env)
    (targetVersion timeout : Int) (w : World) :
    UpgradeIfNeeded { env with lockQueryFails := true } targetVersion timeout w =
      UpgradeIfNeeded { env with lockQueryFails := false, lockFree := false }
        targetVersion timeout w ∧
    (∀ (lockID : Int) (w1 : World),
      (acquireAdvisoryLock { env with lockQueryFails := true } lockID w1).1 =
        Except.error Err.lockCheckError) ∧
    (∀ (lockID : Int) (w1 : World),
      (acquireAdvisoryLock { env with lockQueryFails := false, lockFree := false }
          lockID w1).1 =
        Except.error Err.lockHeldError) := by
  refine ⟨?_, fun lockID w1 => rfl, fun lockID w1 => rfl⟩
  unfold UpgradeIfNeeded
  rw [getSchemaVersion_congr { env with lockQueryFails := true } env w rfl rfl rfl,
      getSchemaVersion_congr
        { env with lockQueryFails := false, lockFree := false } env w rfl rfl rfl]
  cases hg : getSchemaVersion env w with
  | mk res w1 =>
    cases res with
    | error e => rfl
    | ok v =>
      dsimp only
      by_cases hv : v ≥ targetVersion
      · simp [hv]
      · simp only [ge_iff_le, not_le.mp hv, if_neg, not_le, acquireAdvisoryLock,
          Bool.not_false, if_true, if_false, Bool.false_eq_true, eq_self_iff_true]
        exact waitLoop_congr { env with lockQueryFails := true }
          { env with lockQueryFails := false, lockFree := false }
          targetVersion _ rfl rfl rfl _

/-! ### C10: the contended path sleeps before it first re-reads -/

theorem getSchemaVersion_trace (env : Env) (w : World) :
    (getSchemaVersion env w).2.trace = w.trace ++ [Effect.getVersion] := by
  unfold getSchemaVersion
  dsimp only
  split
  · rfl
  · split <;> rfl

theorem waitLoop_trace_extends (env : Env) (targetVersion deadline : Int)
    (w : World) :
    ∃ t, (waitLoop env targetVersion deadline w).2.trace = w.trace ++ t := by
  suffices hs : ∀ (n : Nat) (w : World), (deadline - w.time).toNat = n →
      ∃ t, (waitLoop env targetVersion deadline w).2.trace = w.trace ++ t from
    hs _ w rfl
  intro n
  induction n using Nat.strong_induction_on with
  | _ n ih =>
    intro w hn
    rw [waitLoop]
    by_cases h : w.time < deadline
    · simp only [dif_pos h]
      cases hg : getSchemaVersion env
          { w with time := w.time + checkInterval,
                   trace := w.trace ++ [Effect.sleep checkInterval] } with
      | mk res w2 =>
        have htr : w2.trace =
            w.trace ++ [Effect.sleep checkInterval, Effect.getVersion] := by
          have h3 := getSchemaVersion_trace env
            { w with time := w.time + checkInterval,
                     trace := w.trace ++ [Effect.sleep checkInterval] }
          rw [hg] at h3
          simpa using h3
        cases res with
        | error e => exact ⟨_, htr⟩
        | ok v =>
          dsimp only
          by_cases hv : v ≥ targetVersion
          · simp only [ge_iff_le, hv, if_pos]
            exact ⟨_, htr⟩
          · simp only [ge_iff_le, not_le.mp hv, if_neg, not_le]
            have ht : w2.time = w.time + checkInterval := by
              have h3 := getSchemaVersion_time env
                { w with time := w.time + checkInterval,
                         trace := w.trace ++ [Effect.sleep checkInterval] }
              rw [hg] at h3
              exact h3
            have hci : checkInterval = 5000000000 := by
              norm_num [checkInterval, second]
            obtain ⟨t, htl⟩ := ih _ (by omega) w2 rfl
            exact ⟨_, by rw [htl, htr, List.append_assoc]⟩
    · simp only [dif_neg h]
      exact ⟨[], by simp⟩

/-- C10: in the peer-wait loop, each iteration sleeps one full poll interval
before its version read (the added trace always starts sleep-then-read);
consequently, on the contended path with any timeout ≤ 0 the call returns
the timeout error at once, performing no version read during the wait, even
if peers have already pushed the version to the target (the later reads of
`env.interfere` are unconstrained). -/
theorem contended_wait_sleeps_before_reading :
    (∀ (env : Env) (targetVersion deadline : Int) (w : World),
      w.time < deadline →
      ∃ rest, (waitLoop env targetVersion deadline w).2.trace =
        w.trace ++ Effect.sleep checkInterval :: Effect.getVersion :: rest) ∧
    (∀ (env : Env) (targetVersion timeout : Int) (w : World) (v0 : Int),
      env.initFails w.reads = false → env.readFails w.reads = false →
      (env.interfere w.reads w.ver).getD 0 = v0 → v0 < targetVersion →
      (env.lockQueryFails = true ∨ env.lockFree = false) →
      timeout ≤ 0 →
      UpgradeIfNeeded env targetVersion timeout w =
        (Except.error Err.timeoutError,
         { w with ver := some v0, reads := w.reads + 1,
                  trace := w.trace ++ [Effect.getVersion,
                    Effect.tryLock (baseLockID + targetVersion)] })) := by
  constructor
  · intro env targetVersion deadline w h
    rw [waitLoop]
    simp only [dif_pos h]
    cases hg : getSchemaVersion env
        { w with time := w.time + checkInterval,
                 trace := w.trace ++ [Effect.sleep checkInterval] } with
    | mk res w2 =>
      have htr : w2.trace =
          w.trace ++ [Effect.sleep checkInterval, Effect.getVersion] := by
        have h3 := getSchemaVersion_trace env
          { w with time := w.time + checkInterval,
                   trace := w.trace ++ [Effect.sleep checkInterval] }
        rw [hg] at h3
        simpa using h3
      cases res with
      | error e => exact ⟨[], by simpa using htr⟩
      | ok v =>
        dsimp only
        by_cases hv : v ≥ targetVersion
        · simp only [ge_iff_le, hv, if_pos]
          exact ⟨[], by simpa using htr⟩
        · simp only [ge_iff_le, not_le.mp hv, if_neg, not_le]
          obtain ⟨t, htl⟩ := waitLoop_trace_extends env targetVersion deadline w2
          exact ⟨t, by rw [htl, htr]; simp⟩
  · intro env targetVersion timeout w v0 h1 h2 hv0 hlt hacq ht
    unfold UpgradeIfNeeded getSchemaVersion acquireAdvisoryLock
    have hnolt : ¬ (w.time < w.time + timeout) := by omega
    rcases hacq with hq | hf
    · simp only [h1, h2, hv0, hq, Bool.false_eq_true, if_false, if_true,
        Bool.true_eq_false, not_le.mpr hlt, if_neg, not_le, ge_iff_le,
        Bool.not_true]
      rw [waitLoop]
      simp [hnolt, not_le.mpr hlt]
    · cases hql : env.lockQueryFails with
      | true =>
        simp only [h1, h2, hv0, hql, Bool.false_eq_true, if_false, if_true,
          Bool.true_eq_false, not_le.mpr hlt, if_neg, not_le, ge_iff_le,
          Bool.not_true]
        rw [waitLoop]
        simp [hnolt, not_le.mpr hlt]
      | false =>
        simp only [h1, h2, hv0, hql, hf, Bool.false_eq_true, if_false, if_true,
          Bool.true_eq_false, not_le.mpr hlt, if_neg, not_le, ge_iff_le,
          Bool.not_true, Bool.not_false]
        rw [waitLoop]
        simp [hnolt, not_le.mpr hlt]

/-- C10 witness: with the lock contended, timeout 0 and peers that have
already committed version 5 ≥ target, the call still times out immediately
with only the initial read performed; and a wait that does run sleeps
before it reads. -/
theorem contended_wait_sleeps_before_reading_witness :
    (∃ rest, (waitLoop envOK 1 second w0).2.trace =
      Effect.sleep checkInterval :: Effect.getVersion :: rest) ∧
    UpgradeIfNeeded
        { envOK with lockFree := false,
                     interfere := fun i s => if i = 0 then s else some 5 } 1 0 w0 =
      (Except.error Err.timeoutError,
       { ver := some 0, reads := 1, time := 0,
         trace := [Effect.getVersion, Effect.tryLock 6878] }) := by
  constructor
  · simpa [w0] using
      (contended_wait_sleeps_before_reading.1 envOK 1 second w0
        (by norm_num [w0, second]))
  · simpa [w0] using
      (contended_wait_sleeps_before_reading.2
        { envOK with lockFree := false,
                     interfere := fun i s => if i = 0 then s else some 5 }
        1 0 w0 0 rfl rfl rfl (by norm_num) (Or.inr rfl) le_rfl)

/-! ### C6: the timeout bound -/

theorem getSchemaVersion_ok (env : Env) (w : World)
    (h1 : env.initFails w.reads = false) (h2 : env.readFails w.reads = false) :
    getSchemaVersion env w =
      (Except.ok ((env.interfere w.reads w.ver).getD 0),
       { w with ver := some ((env.interfere w.reads w.ver).getD 0),
                reads := w.reads + 1,
                trace := w.trace ++ [Effect.getVersion] }) := by
  unfold getSchemaVersion
  simp [h1, h2]

theorem getSchemaVersion_read_fails (env : Env) (w : World)
    (h1 : env.initFails w.reads = false) (h2 : env.readFails w.reads = true) :
    getSchemaVersion env w =
      (Except.error Err.versionReadError,
       { w with ver := some ((env.interfere w.reads w.ver).getD 0),
                reads := w.reads + 1,
                trace := w.trace ++ [Effect.getVersion] }) := by
  unfold getSchemaVersion
  simp [h1, h2]

theorem waitLoop_timeout_bound (env : Env) (targetVersion deadline : Int)
    (hinit : ∀ i, env.initFails i = false)
    (hread : ∀ i, env.readFails i = false)
    (hver : ∀ i s, (env.interfere i s).getD 0 < targetVersion) :
    ∀ (w : World),
      (waitLoop env targetVersion deadline w).1 = Except.error Err.timeoutError ∧
      (w.time ≤ deadline →
        deadline ≤ (waitLoop env targetVersion deadline w).2.time ∧
        (waitLoop env targetVersion deadline w).2.time ≤ deadline + checkInterval) ∧
      (deadline ≤ w.time → (waitLoop env targetVersion deadline w).2.time = w.time) := by
  have hci : checkInterval = 5000000000 := by norm_num [checkInterval, second]
  intro w
  induction w using waitLoop.induct env targetVersion deadline with
  | case1 x hx w1 e w2 hg =>
    rw [getSchemaVersion_ok env w1 (hinit _) (hread _)] at hg
    simp at hg
  | case2 x hx w1 v w2 hg hge =>
    rw [getSchemaVersion_ok env w1 (hinit _) (hread _)] at hg
    simp only [Prod.mk.injEq, Except.ok.injEq] at hg
    exact absurd hge (not_le.mpr (hg.1 ▸ hver _ _))
  | case3 x hx w1 v w2 hg hge ih =>
    rw [waitLoop]
    simp only [dif_pos hx]
    cases hg2 : getSchemaVersion env
        { x with time := x.time + checkInterval,
                 trace := x.trace ++ [Effect.sleep checkInterval] } with
    | mk res2 w2x =>
      have hg3 : (res2, w2x) = (Except.ok v, w2) := hg2.symm.trans hg
      simp only [Prod.mk.injEq] at hg3
      obtain ⟨hres, hw2x⟩ := hg3
      subst hres
      dsimp only
      rw [hw2x, if_neg hge]
      have ht2 : w2.time = x.time + checkInterval := by
        have h3 := getSchemaVersion_time env w1
        rw [hg] at h3
        exact h3
      obtain ⟨ha, hb, hc⟩ := ih
      refine ⟨ha, fun hxd => ?_, fun hdx => ?_⟩
      · by_cases hle : w2.time ≤ deadline
        · have h4 := hb hle
          omega
        · have h4 := hc (by omega)
          omega
      · omega
  | case4 x hx =>
    rw [waitLoop]
    rw [dif_neg hx]
    dsimp only
    exact ⟨rfl, fun hwd => ⟨by omega, by omega⟩, fun hdw => rfl⟩

/-- C6: when the lock is contended and the observed version never reaches
the target while every poll read succeeds, UpgradeIfNeeded returns the
timeout error, and it returns no earlier than the configured deadline
(call start + timeout) and no more than one poll interval (5s) after it. -/
theorem waiting_times_out_within_one_interval (env : Env)
    (targetVersion timeout : Int) (w : World)
    (hinit : ∀ i, env.initFails i = false)
    (hread : ∀ i, env.readFails i = false)
    (hver : ∀ i s, (env.interfere i s).getD 0 < targetVersion)
    (hacq : env.lockQueryFails = true ∨ env.lockFree = false)
    (ht : 0 ≤ timeout) :
    (UpgradeIfNeeded env targetVersion timeout w).1 =
      Except.error Err.timeoutError ∧
    w.time + timeout ≤ (UpgradeIfNeeded env targetVersion timeout w).2.time ∧
    (UpgradeIfNeeded env targetVersion timeout w).2.time ≤
      w.time + timeout + checkInterval := by
  unfold UpgradeIfNeeded acquireAdvisoryLock
  rw [getSchemaVersion_ok env w (hinit _) (hread _)]
  dsimp only
  rw [if_neg (not_le.mpr (hver _ _))]
  have hrun : ∀ w2 : World, w2.time = w.time →
      (waitLoop env targetVersion (w.time + timeout) w2).1 =
        Except.error Err.timeoutError ∧
      w.time + timeout ≤ (waitLoop env targetVersion (w.time + timeout) w2).2.time ∧
      (waitLoop env targetVersion (w.time + timeout) w2).2.time ≤
        w.time + timeout + checkInterval := by
    intro w2 hw2
    obtain ⟨ha, hb, hc⟩ :=
      waitLoop_timeout_bound env targetVersion (w.time + timeout)
        hinit hread hver w2
    obtain ⟨hb1, hb2⟩ := hb (by omega)
    exact ⟨ha, by omega, by omega⟩
  rcases hacq with hq | hf
  · rw [hq]
    simp only [if_true]
    exact hrun _ rfl
  · cases hql : env.lockQueryFails with
    | true =>
      simp only [if_true]
      exact hrun _ rfl
    | false =>
      rw [hf]
      simp only [Bool.not_false, if_true, if_false]
      exact hrun _ rfl

/-- C6 witness: timeout 10s, poll interval 5s: the timeout error arrives at
a model time between 10s and 15s. -/
theorem waiting_times_out_within_one_interval_witness :
    (UpgradeIfNeeded envContended 1 (10 * second) w0).1 =
      Except.error Err.timeoutError ∧
    10 * second ≤ (UpgradeIfNeeded envContended 1 (10 * second) w0).2.time ∧
    (UpgradeIfNeeded envContended 1 (10 * second) w0).2.time ≤ 15 * second := by
  have h := waiting_times_out_within_one_interval envContended 1 (10 * second) w0
    (fun i => rfl) (fun i => rfl)
    (fun i s => by norm_num [envContended, envOK])
    (Or.inr rfl) (by norm_num [second])
  refine ⟨h.1, ?_, ?_⟩
  · have h21 := h.2.1
    have e1 : w0.time = 0 := rfl
    omega
  · have h22 := h.2.2
    have e1 : w0.time = 0 := rfl
    have e2 : checkInterval = 5 * second := rfl
    omega

/-! ### C7: a failing poll read aborts the wait -/

/-- C7: each iteration of the peer-wait loop performs exactly one version
read; when the read of iteration k+1 fails (after k surviving iterations
whose reads stayed below the target), the loop returns that read error at
once: the read counter shows exactly k+1 loop reads, the clock exactly k+1
poll sleeps (so no further polling happened), and the result is the read
error, not the timeout error. -/
theorem waitLoop_read_failure_aborts (env : Env) (targetVersion deadline : Int) :
    ∀ (k : Nat) (w : World),
      (∀ j, j < k → env.initFails (w.reads + j) = false) →
      (∀ j, j < k → env.readFails (w.reads + j) = false) →
      (∀ j (s : Option Int), j < k →
        (env.interfere (w.reads + j) s).getD 0 < targetVersion) →
      env.initFails (w.reads + k) = false →
      env.readFails (w.reads + k) = true →
      w.time + (k : Int) * checkInterval < deadline →
      ∃ w2 : World,
        waitLoop env targetVersion deadline w =
          (Except.error Err.versionReadError, w2) ∧
        w2.reads = w.reads + k + 1 ∧
        w2.time = w.time + ((k : Int) + 1) * checkInterval := by
  have hci : checkInterval = 5000000000 := by norm_num [checkInterval, second]
  intro k
  induction k with
  | zero =>
    intro w hbi hbr hbv hik hrk htime
    have h : w.time < deadline := by push_cast at htime; omega
    rw [waitLoop]
    simp only [dif_pos h]
    cases hg2 : getSchemaVersion env
        { w with time := w.time + checkInterval,
                 trace := w.trace ++ [Effect.sleep checkInterval] } with
    | mk res w2x =>
      rw [getSchemaVersion_read_fails env
        { w with time := w.time + checkInterval,
                 trace := w.trace ++ [Effect.sleep checkInterval] }
        (by simpa using hik) (by simpa using hrk)] at hg2
      simp only [Prod.mk.injEq] at hg2
      obtain ⟨hres, hw⟩ := hg2
      subst hres
      subst hw
      dsimp only
      refine ⟨_, rfl, ?_, ?_⟩
      · simp
      · dsimp only
        rw [hci]
        push_cast
        omega
  | succ k ih =>
    intro w hbi hbr hbv hik hrk htime
    have h : w.time < deadline := by
      rw [hci] at htime
      push_cast at htime
      omega
    rw [waitLoop]
    simp only [dif_pos h]
    cases hg2 : getSchemaVersion env
        { w with time := w.time + checkInterval,
                 trace := w.trace ++ [Effect.sleep checkInterval] } with
    | mk res w2x =>
      rw [getSchemaVersion_ok env
        { w with time := w.time + checkInterval,
                 trace := w.trace ++ [Effect.sleep checkInterval] }
        (by simpa using hbi 0 (by omega)) (by simpa using hbr 0 (by omega))] at hg2
      simp only [Prod.mk.injEq] at hg2
      obtain ⟨hres, hw⟩ := hg2
      subst hres
      subst hw
      dsimp only
      rw [if_neg (not_le.mpr (show (env.interfere w.reads w.ver).getD 0 <
        targetVersion by simpa using hbv 0 w.ver (by omega)))]
      obtain ⟨w2, heq, hr, htm⟩ := ih
        { ver := some ((env.interfere w.reads w.ver).getD 0),
          reads := w.reads + 1, time := w.time + checkInterval,
          trace := w.trace ++ [Effect.sleep checkInterval] ++ [Effect.getVersion] }
        (by
          intro j hj
          dsimp only
          rw [show w.reads + 1 + j = w.reads + (j + 1) from by omega]
          exact hbi (j + 1) (by omega))
        (by
          intro j hj
          dsimp only
          rw [show w.reads + 1 + j = w.reads + (j + 1) from by omega]
          exact hbr (j + 1) (by omega))
        (by
          intro j s hj
          dsimp only
          rw [show w.reads + 1 + j = w.reads + (j + 1) from by omega]
          exact hbv (j + 1) s (by omega))
        (by
          dsimp only
          rw [show w.reads + 1 + k = w.reads + (k + 1) from by omega]
          exact hik)
        (by
          dsimp only
          rw [show w.reads + 1 + k = w.reads + (k + 1) from by omega]
          exact hrk)
        (by
          dsimp only
          rw [hci] at htime ⊢
          push_cast at htime ⊢
          omega)
      refine ⟨w2, heq, ?_, ?_⟩
      · dsimp only at hr
        omega
      · dsimp only at htm
        rw [hci] at htm ⊢
        push_cast at htm ⊢
        omega

/-- C7 witness: on the contended path the first poll read survives (value 0
< target 1) and the second poll read fails: the wait aborts at that point
with the read error after exactly two poll reads and two sleeps. -/
theorem waitLoop_read_failure_aborts_witness :
    ∃ w2 : World,
      waitLoop envReadFail 1 (100 * second)
          { ver := some 0, reads := 1, time := 0, trace := [] } =
        (Except.error Err.versionReadError, w2) ∧
      w2.reads = 3 ∧ w2.time = 2 * checkInterval := by
  obtain ⟨w2, heq, hr, htm⟩ :=
    waitLoop_read_failure_aborts envReadFail 1 (100 * second) 1
      { ver := some 0, reads := 1, time := 0, trace := [] }
      (fun j hj => rfl)
      (fun j hj => by
        interval_cases j
        rfl)
      (fun j s hj => by norm_num [envReadFail, envOK])
      rfl rfl
      (by norm_num [checkInterval, second])
  refine ⟨w2, heq, by simpa using hr, ?_⟩
  rw [htm]
  norm_num

/-! ### C8: monotonicity of the persisted version -/

theorem getSchemaVersion_ver (env : Env) (w : World)
    (hid : ∀ i s, env.interfere i s = s) :
    (getSchemaVersion env w).2.ver.getD 0 = w.ver.getD 0 := by
  unfold getSchemaVersion
  dsimp only
  rw [hid]
  split
  · rfl
  · split
    · simp
    · simp

theorem getSchemaVersion_ok_val (env : Env) (w : World) (v : Int) (w1 : World)
    (hg : getSchemaVersion env w = (Except.ok v, w1)) : w1.ver = some v := by
  unfold getSchemaVersion at hg
  dsimp only at hg
  split at hg
  · simp at hg
  · split at hg
    · simp at hg
    · simp only [Prod.mk.injEq, Except.ok.injEq] at hg
      rw [← hg.2, ← hg.1]
      simp

theorem acquireAdvisoryLock_ver (env : Env) (lockID : Int) (w : World) :
    (acquireAdvisoryLock env lockID w).2.ver = w.ver := by
  unfold acquireAdvisoryLock
  dsimp only
  split
  · rfl
  · split <;> rfl

theorem releaseAdvisoryLock_ver (lockID : Int) (w : World) :
    (releaseAdvisoryLock lockID w).ver = w.ver := rfl

theorem waitLoop_ver (env : Env) (targetVersion deadline : Int)
    (hid : ∀ i s, env.interfere i s = s) (w : World) :
    (waitLoop env targetVersion deadline w).2.ver.getD 0 = w.ver.getD 0 := by
  induction w using waitLoop.induct env targetVersion deadline with
  | case1 x hx w1 e w2 hg =>
    rw [waitLoop]
    simp only [dif_pos hx]
    cases hg2 : getSchemaVersion env
        { x with time := x.time + checkInterval,
                 trace := x.trace ++ [Effect.sleep checkInterval] } with
    | mk res w2x =>
      have hg3 : (res, w2x) = (Except.error e, w2) := hg2.symm.trans hg
      simp only [Prod.mk.injEq] at hg3
      obtain ⟨hres, hw⟩ := hg3
      subst hres
      subst hw
      dsimp only
      have h3 := getSchemaVersion_ver env w1 hid
      rw [hg] at h3
      exact h3
  | case2 x hx w1 v w2 hg hge =>
    rw [waitLoop]
    simp only [dif_pos hx]
    cases hg2 : getSchemaVersion env
        { x with time := x.time + checkInterval,
                 trace := x.trace ++ [Effect.sleep checkInterval] } with
    | mk res w2x =>
      have hg3 : (res, w2x) = (Except.ok v, w2) := hg2.symm.trans hg
      simp only [Prod.mk.injEq] at hg3
      obtain ⟨hres, hw⟩ := hg3
      subst hres
      subst hw
      dsimp only
      rw [if_pos hge]
      have h3 := getSchemaVersion_ver env w1 hid
      rw [hg] at h3
      exact h3
  | case3 x hx w1 v w2 hg hge ih =>
    rw [waitLoop]
    simp only [dif_pos hx]
    cases hg2 : getSchemaVersion env
        { x with time := x.time + checkInterval,
                 trace := x.trace ++ [Effect.sleep checkInterval] } with
    | mk res w2x =>
      have hg3 : (res, w2x) = (Except.ok v, w2) := hg2.symm.trans hg
      simp only [Prod.mk.injEq] at hg3
      obtain ⟨hres, hw⟩ := hg3
      subst hres
      subst hw
      dsimp only
      rw [if_neg hge]
      have h3 := getSchemaVersion_ver env w1 hid
      rw [hg] at h3
      rw [ih, h3]
  | case4 x hx =>
    rw [waitLoop]
    rw [dif_neg hx]

theorem upgradeSchema_ver (env : Env) (newVersion : Int) (w : World) :
    (upgradeSchema env newVersion w).2.ver = w.ver ∨
    (upgradeSchema env newVersion w).2.ver = some newVersion := by
  unfold upgradeSchema
  dsimp only
  split
  · exact Or.inl rfl
  · split
    · exact Or.inl rfl
    · split
      · exact Or.inl rfl
      · split
        · exact Or.inl rfl
        · exact Or.inr rfl

theorem upgradeIfNeeded_ver_dichotomy (env : Env) (targetVersion timeout : Int)
    (w : World) (hid : ∀ i s, env.interfere i s = s) :
    (UpgradeIfNeeded env targetVersion timeout w).2.ver.getD 0 = w.ver.getD 0 ∨
    ((UpgradeIfNeeded env targetVersion timeout w).2.ver = some targetVersion ∧
      w.ver.getD 0 < targetVersion) := by
  unfold UpgradeIfNeeded
  cases hg0 : getSchemaVersion env w with
  | mk res0 w1 =>
    have hw1 : w1.ver.getD 0 = w.ver.getD 0 := by
      have h3 := getSchemaVersion_ver env w hid
      rw [hg0] at h3
      exact h3
    cases res0 with
    | error e => exact Or.inl hw1
    | ok v =>
      have hv : w1.ver = some v := getSchemaVersion_ok_val env w v w1 hg0
      have hvval : v = w.ver.getD 0 := by rw [← hw1, hv]; rfl
      dsimp only
      by_cases hge : v ≥ targetVersion
      · rw [if_pos hge]
        exact Or.inl hw1
      · rw [if_neg hge]
        cases ha : acquireAdvisoryLock env (baseLockID + targetVersion) w1 with
        | mk resa w2 =>
          have hw2 : w2.ver = w1.ver := by
            have h3 := acquireAdvisoryLock_ver env (baseLockID + targetVersion) w1
            rw [ha] at h3
            exact h3
          cases resa with
          | error e =>
            dsimp only
            left
            rw [waitLoop_ver env targetVersion (w2.time + timeout) hid w2,
              hw2, hw1]
          | ok u =>
            dsimp only
            cases hg1 : getSchemaVersion env w2 with
            | mk res1 w3 =>
              have hw3 : w3.ver.getD 0 = w.ver.getD 0 := by
                have h3 := getSchemaVersion_ver env w2 hid
                rw [hg1] at h3
                rw [h3, hw2, hw1]
              cases res1 with
              | error e => exact Or.inl hw3
              | ok v1 =>
                have hv1 : w3.ver = some v1 :=
                  getSchemaVersion_ok_val env w2 v1 w3 hg1
                have hv1val : v1 = w.ver.getD 0 := by rw [← hw3, hv1]; rfl
                dsimp only
                by_cases hge1 : v1 ≥ targetVersion
                · rw [if_pos hge1]
                  exact Or.inl hw3
                · rw [if_neg hge1]
                  cases hu : upgradeSchema env targetVersion w3 with
                  | mk resu w4 =>
                    have hdi := upgradeSchema_ver env targetVersion w3
                    rw [hu] at hdi
                    dsimp only at hdi
                    have hrel : ∀ wx : World,
                        (releaseAdvisoryLock (baseLockID + targetVersion) wx).ver
                          = wx.ver := fun wx => rfl
                    cases resu with
                    | error e =>
                      dsimp only
                      rcases hdi with hL | hR
                      · left
                        rw [hrel, hL, hw3]
                      · right
                        exact ⟨by rw [hrel]; exact hR, by omega⟩
                    | ok u1 =>
                      dsimp only
                      rcases hdi with hL | hR
                      · left
                        rw [hrel, hL, hw3]
                      · right
                        exact ⟨by rw [hrel]; exact hR, by omega⟩

theorem acquireAdvisoryLock_trace (env : Env) (lockID : Int) (w : World) :
    (acquireAdvisoryLock env lockID w).2.trace =
      w.trace ++ [Effect.tryLock lockID] := by
  unfold acquireAdvisoryLock
  dsimp only
  split
  · rfl
  · split <;> rfl

theorem upgradeSchema_trace_writes (env : Env) (newVersion : Int) (w : World)
    (v : Int)
    (h : Effect.writeVersion v ∈ (upgradeSchema env newVersion w).2.trace) :
    Effect.writeVersion v ∈ w.trace ∨ v = newVersion := by
  unfold upgradeSchema at h
  dsimp only at h
  split at h
  · exact Or.inl h
  · split at h
    · simp at h
      exact Or.inl h
    · split at h
      · simp at h
        exact Or.inl h
      · split at h
        · simp at h
          exact h
        · simp at h
          exact h

theorem waitLoop_trace_mem (env : Env) (targetVersion deadline : Int)
    (w : World) (a : Effect)
    (hs : ∀ d0, a ≠ Effect.sleep d0) (hgv : a ≠ Effect.getVersion) :
    a ∈ (waitLoop env targetVersion deadline w).2.trace → a ∈ w.trace := by
  induction w using waitLoop.induct env targetVersion deadline with
  | case1 x hx w1 e w2 hg =>
    rw [waitLoop]
    simp only [dif_pos hx]
    cases hg2 : getSchemaVersion env
        { x with time := x.time + checkInterval,
                 trace := x.trace ++ [Effect.sleep checkInterval] } with
    | mk res w2x =>
      have hg3 : (res, w2x) = (Except.error e, w2) := hg2.symm.trans hg
      simp only [Prod.mk.injEq] at hg3
      obtain ⟨hres, hw⟩ := hg3
      subst hres
      subst hw
      dsimp only
      intro hmem
      have htr : w2x.trace =
          x.trace ++ [Effect.sleep checkInterval] ++ [Effect.getVersion] := by
        have h3 := getSchemaVersion_trace env w1
        rw [hg] at h3
        exact h3
      rw [htr] at hmem
      simp only [List.mem_append, List.mem_singleton] at hmem
      rcases hmem with (hm | hm) | hm
      · exact hm
      · exact absurd hm (hs checkInterval)
      · exact absurd hm hgv
  | case2 x hx w1 v w2 hg hge =>
    rw [waitLoop]
    simp only [dif_pos hx]
    cases hg2 : getSchemaVersion env
        { x with time := x.time + checkInterval,
                 trace := x.trace ++ [Effect.sleep checkInterval] } with
    | mk res w2x =>
      have hg3 : (res, w2x) = (Except.ok v, w2) := hg2.symm.trans hg
      simp only [Prod.mk.injEq] at hg3
      obtain ⟨hres, hw⟩ := hg3
      subst hres
      subst hw
      dsimp only
      rw [if_pos hge]
      intro hmem
      have htr : w2x.trace =
          x.trace ++ [Effect.sleep checkInterval] ++ [Effect.getVersion] := by
        have h3 := getSchemaVersion_trace env w1
        rw [hg] at h3
        exact h3
      rw [htr] at hmem
      simp only [List.mem_append, List.mem_singleton] at hmem
      rcases hmem with (hm | hm) | hm
      · exact hm
      · exact absurd hm (hs checkInterval)
      · exact absurd hm hgv
  | case3 x hx w1 v w2 hg hge ih =>
    rw [waitLoop]
    simp only [dif_pos hx]
    cases hg2 : getSchemaVersion env
        { x with time := x.time + checkInterval,
                 trace := x.trace ++ [Effect.sleep checkInterval] } with
    | mk res w2x =>
      have hg3 : (res, w2x) = (Except.ok v, w2) := hg2.symm.trans hg
      simp only [Prod.mk.injEq] at hg3
      obtain ⟨hres, hw⟩ := hg3
      subst hres
      subst hw
      dsimp only
      rw [if_neg hge]
      intro hmem
      have hmem2 := ih hmem
      have htr : w2x.trace =
          x.trace ++ [Effect.sleep checkInterval] ++ [Effect.getVersion] := by
        have h3 := getSchemaVersion_trace env w1
        rw [hg] at h3
        exact h3
      rw [htr] at hmem2
      simp only [List.mem_append, List.mem_singleton] at hmem2
      rcases hmem2 with (hm | hm) | hm
      · exact hm
      · exact absurd hm (hs checkInterval)
      · exact absurd hm hgv
  | case4 x hx =>
    rw [waitLoop]
    rw [dif_neg hx]
    exact fun hmem => hmem

theorem upgradeIfNeeded_trace_writes (env : Env) (targetVersion timeout : Int)
    (w : World) (v : Int)
    (h : Effect.writeVersion v ∈
      (UpgradeIfNeeded env targetVersion timeout w).2.trace) :
    Effect.writeVersion v ∈ w.trace ∨ v = targetVersion := by
  unfold UpgradeIfNeeded at h
  cases hg0 : getSchemaVersion env w with
  | mk res0 w1 =>
    rw [hg0] at h
    have htr1 : w1.trace = w.trace ++ [Effect.getVersion] := by
      have h3 := getSchemaVersion_trace env w
      rw [hg0] at h3
      exact h3
    cases res0 with
    | error e =>
      dsimp only at h
      rw [htr1] at h
      simp only [List.mem_append, List.mem_singleton] at h
      rcases h with hm | hm
      · exact Or.inl hm
      · exact absurd hm (by simp)
    | ok v0 =>
      dsimp only at h
      by_cases hge : v0 ≥ targetVersion
      · rw [if_pos hge] at h
        rw [htr1] at h
        simp only [List.mem_append, List.mem_singleton] at h
        rcases h with hm | hm
        · exact Or.inl hm
        · exact absurd hm (by simp)
      · rw [if_neg hge] at h
        cases ha : acquireAdvisoryLock env (baseLockID + targetVersion) w1 with
        | mk resa w2 =>
          rw [ha] at h
          have htr2 : w2.trace =
              w1.trace ++ [Effect.tryLock (baseLockID + targetVersion)] := by
            have h3 := acquireAdvisoryLock_trace env (baseLockID + targetVersion) w1
            rw [ha] at h3
            exact h3
          have hmem12 : ∀ a : Effect, a ∈ w2.trace →
              a ∈ w.trace ∨ a = Effect.getVersion ∨
                a = Effect.tryLock (baseLockID + targetVersion) := by
            intro a hm
            rw [htr2, htr1] at hm
            simp only [List.mem_append, List.mem_singleton] at hm
            tauto
          cases resa with
          | error e =>
            dsimp only at h
            have h2 := waitLoop_trace_mem env targetVersion (w2.time + timeout) w2
              (Effect.writeVersion v) (by intro d0 hc; cases hc) (by intro hc; cases hc) h
            rcases hmem12 _ h2 with hm | hm | hm
            · exact Or.inl hm
            · exact absurd hm (by simp)
            · exact absurd hm (by simp)
          | ok u =>
            dsimp only at h
            cases hg1 : getSchemaVersion env w2 with
            | mk res1 w3 =>
              rw [hg1] at h
              have htr3 : w3.trace = w2.trace ++ [Effect.getVersion] := by
                have h3 := getSchemaVersion_trace env w2
                rw [hg1] at h3
                exact h3
              have hmem13 : ∀ a : Effect, a ∈ w3.trace →
                  a ∈ w.trace ∨ a = Effect.getVersion ∨
                    a = Effect.tryLock (baseLockID + targetVersion) := by
                intro a hm
                rw [htr3] at hm
                simp only [List.mem_append, List.mem_singleton] at hm
                rcases hm with hm | hm
                · exact hmem12 a hm
                · exact Or.inr (Or.inl hm)
              cases res1 with
              | error e =>
                dsimp only at h
                unfold releaseAdvisoryLock at h
                dsimp only at h
                simp only [List.mem_append, List.mem_singleton] at h
                rcases h with hm | hm
                · rcases hmem13 _ hm with hm2 | hm2 | hm2
                  · exact Or.inl hm2
                  · exact absurd hm2 (by simp)
                  · exact absurd hm2 (by simp)
                · exact absurd hm (by simp)
              | ok v1 =>
                dsimp only at h
                by_cases hge1 : v1 ≥ targetVersion
                · rw [if_pos hge1] at h
                  unfold releaseAdvisoryLock at h
                  dsimp only at h
                  simp only [List.mem_append, List.mem_singleton] at h
                  rcases h with hm | hm
                  · rcases hmem13 _ hm with hm2 | hm2 | hm2
                    · exact Or.inl hm2
                    · exact absurd hm2 (by simp)
                    · exact absurd hm2 (by simp)
                  · exact absurd hm (by simp)
                · rw [if_neg hge1] at h
                  cases hu : upgradeSchema env targetVersion w3 with
                  | mk resu w4 =>
                    rw [hu] at h
                    have hfin : Effect.writeVersion v ∈ w4.trace →
                        Effect.writeVersion v ∈ w.trace ∨ v = targetVersion := by
                      intro hm
                      have h4 := upgradeSchema_trace_writes env targetVersion w3 v
                        (by rw [hu]; exact hm)
                      rcases h4 with hm2 | hm2
                      · rcases hmem13 _ hm2 with hm3 | hm3 | hm3
                        · exact Or.inl hm3
                        · exact absurd hm3 (by simp)
                        · exact absurd hm3 (by simp)
                      · exact Or.inr hm2
                    cases resu with
                    | error e =>
                      dsimp only at h
                      unfold releaseAdvisoryLock at h
                      dsimp only at h
                      simp only [List.mem_append, List.mem_singleton] at h
                      rcases h with hm | hm
                      · exact hfin hm
                      · exact absurd hm (by simp)
                    | ok u1 =>
                      dsimp only at h
                      unfold releaseAdvisoryLock at h
                      dsimp only at h
                      simp only [List.mem_append, List.mem_singleton] at h
                      rcases h with hm | hm
                      · exact hfin hm
                      · exact absurd hm (by simp)

theorem runCalls_cons (c : Env × Int × Int) (cs : List (Env × Int × Int))
    (w : World) :
    runCalls (c :: cs) w = runCalls cs ((UpgradeIfNeeded c.1 c.2.1 c.2.2 w).2) :=
  rfl

/-- C8: across any sequence of UpgradeIfNeeded calls (with no concurrent
peer, so that the model's reads see the stored value) the persisted schema
version never decreases; moreover a single call either leaves the stored
value unchanged or sets it to exactly its target, and only when the stored
value was strictly below that target; and the only write effect a call can
emit writes exactly its target version. -/
theorem schema_version_monotone :
    (∀ (calls : List (Env × Int × Int)) (w : World),
      (∀ c ∈ calls, ∀ (i : Nat) (s : Option Int), (c.1 : Env).interfere i s = s) →
      w.ver.getD 0 ≤ (runCalls calls w).ver.getD 0) ∧
    (∀ (env : Env) (targetVersion timeout : Int) (w : World),
      (∀ (i : Nat) (s : Option Int), env.interfere i s = s) →
      (UpgradeIfNeeded env targetVersion timeout w).2.ver.getD 0 = w.ver.getD 0 ∨
      ((UpgradeIfNeeded env targetVersion timeout w).2.ver = some targetVersion ∧
        w.ver.getD 0 < targetVersion)) ∧
    (∀ (env : Env) (targetVersion timeout : Int) (w : World) (v : Int),
      Effect.writeVersion v ∈
        (UpgradeIfNeeded env targetVersion timeout w).2.trace →
      Effect.writeVersion v ∈ w.trace ∨ v = targetVersion) := by
  refine ⟨?_, fun env t tmo w hid => upgradeIfNeeded_ver_dichotomy env t tmo w hid,
    fun env t tmo w v h => upgradeIfNeeded_trace_writes env t tmo w v h⟩
  intro calls
  induction calls with
  | nil => exact fun w h => le_refl _
  | cons c cs ih =>
    intro w h
    rw [runCalls_cons]
    have hstep := upgradeIfNeeded_ver_dichotomy c.1 c.2.1 c.2.2 w
      (h c (by simp))
    have hrest := ih ((UpgradeIfNeeded c.1 c.2.1 c.2.2 w).2)
      (fun c2 hc2 => h c2 (by simp [hc2]))
    rcases hstep with hL | hR
    · omega
    · have hval : (UpgradeIfNeeded c.1 c.2.1 c.2.2 w).2.ver.getD 0 = c.2.1 := by
        rw [hR.1]
        rfl
      have hlt := hR.2
      omega

/-- C8 witness: two consecutive calls (targets 1 then 2) on a fresh
database never decrease the stored version. -/
theorem schema_version_monotone_witness :
    w0.ver.getD 0 ≤ (runCalls [(envOK, 1, 0), (envOK, 2, 0)] w0).ver.getD 0 ∧
    ((UpgradeIfNeeded envOK 1 0 w0).2.ver.getD 0 = w0.ver.getD 0 ∨
      ((UpgradeIfNeeded envOK 1 0 w0).2.ver = some 1 ∧ w0.ver.getD 0 < 1)) := by
  constructor
  · exact schema_version_monotone.1 [(envOK, 1, 0), (envOK, 2, 0)] w0
      (by
        intro c hc i s
        simp only [List.mem_cons, List.mem_singleton] at hc
        rcases hc with rfl | rfl | hc
        · rfl
        · rfl
        · cases hc)
  · exact schema_version_monotone.2.1 envOK 1 0 w0 (fun i s => rfl)

/-! ### C9: mutual exclusion across concurrent invocations

A small-step interleaving model of several instances running UpgradeIfNeeded
concurrently against one database with the same target. Each step is one
database interaction of one instance (the points where the Go code touches
shared state); the advisory lock for the single lockID baseLockID + target
is the lockHolder field. -/

theorem mutex_update (s : SysState) (i : Nat) (X : Inst) (L : Option Nat)
    (V : Int)
    (hX : (X.phase ≠ Phase.doubleCheck ∧ X.phase ≠ Phase.upgrading) ∨ L = some i)
    (hold : ∀ j, j ≠ i →
      ((s.insts j).phase = Phase.doubleCheck ∨
       (s.insts j).phase = Phase.upgrading) → L = some j) :
    MutexInv { ver := V, lockHolder := L,
               insts := Function.update s.insts i X } := by
  intro j hj
  dsimp only at hj ⊢
  by_cases hij : j = i
  · subst hij
    rw [Function.update_same] at hj
    rcases hX with ⟨h1, h2⟩ | hL
    · rcases hj with hj | hj
      · exact absurd hj h1
      · exact absurd hj h2
    · exact hL
  · rw [Function.update_noteq hij] at hj
    exact hold j hij hj

theorem stepInst_mutex (target : Int) (cbOk txOk : Nat → Bool) (s : SysState)
    (i : Nat) (h : MutexInv s) : MutexInv (stepInst target cbOk txOk s i) := by
  unfold stepInst
  dsimp only
  cases hp : (s.insts i).phase with
  | start =>
    dsimp only
    split
    · refine mutex_update s i _ _ _ ?_ (fun j hij hj => h j hj)
      exact Or.inl (by constructor <;> simp)
    · refine mutex_update s i _ _ _ ?_ (fun j hij hj => h j hj)
      exact Or.inl (by constructor <;> simp)
  | tryLock =>
    dsimp only
    split
    next hc =>
      refine mutex_update s i _ _ _ (Or.inr rfl) (fun j hij hj => ?_)
      have h2 := h j hj
      rw [hc] at h2
      exact absurd h2 (by simp)
    next hc =>
      refine mutex_update s i _ _ _ ?_ (fun j hij hj => h j hj)
      exact Or.inl (by constructor <;> simp)
  | doubleCheck =>
    have hi := h i (Or.inl hp)
    dsimp only
    split
    · refine mutex_update s i _ _ _ ?_ (fun j hij hj => ?_)
      · exact Or.inl (by constructor <;> simp)
      · have h2 := h j hj
        rw [hi] at h2
        simp only [Option.some.injEq] at h2
        exact absurd h2.symm hij
    · exact mutex_update s i _ _ _ (Or.inr hi) (fun j hij hj => h j hj)
  | upgrading =>
    have hi := h i (Or.inr hp)
    have hco : ∀ (V : Int) (b : Bool),
        MutexInv
          { ver := V, lockHolder := none,
            insts := Function.update s.insts i
              { phase := Phase.done b, runs := (s.insts i).runs } } := by
      intro V b
      refine mutex_update s i _ _ _ ?_ (fun j hij hj => ?_)
      · exact Or.inl (by constructor <;> simp)
      · have h2 := h j hj
        rw [hi] at h2
        simp only [Option.some.injEq] at h2
        exact absurd h2.symm hij
    dsimp only
    split
    · split
      · exact hco target true
      · exact hco s.ver false
    · exact hco s.ver false
  | waiting =>
    dsimp only
    split
    · refine mutex_update s i _ _ _ ?_ (fun j hij hj => h j hj)
      exact Or.inl (by constructor <;> simp)
    · exact h
  | done ok => exact h

theorem timeoutInst_mutex (s : SysState) (i : Nat) (h : MutexInv s) :
    MutexInv (timeoutInst s i) := by
  unfold timeoutInst
  cases hp : (s.insts i).phase with
  | waiting =>
    dsimp only
    refine mutex_update s i _ _ _ ?_ (fun j hij hj => h j hj)
    exact Or.inl (by constructor <;> simp)
  | start => exact h
  | tryLock => exact h
  | doubleCheck => exact h
  | upgrading => exact h
  | done ok => exact h

theorem once_update_same (target : Int) (s : SysState) (i : Nat) (X : Inst)
    (L : Option Nat)
    (hruns : X.runs = (s.insts i).runs)
    (hnot : (s.insts i).phase ≠ Phase.upgrading)
    (ho : OnceInv target s) :
    OnceInv target { ver := s.ver, lockHolder := L,
                     insts := Function.update s.insts i X } := by
  obtain ⟨hb, hc, hd⟩ := ho
  refine ⟨?_, ?_, ?_⟩
  · intro j
    dsimp only
    by_cases hij : j = i
    · subst hij
      rw [Function.update_same, hruns]
      exact hb j
    · rw [Function.update_noteq hij]
      exact hb j
  · intro a b hab
    dsimp only
    by_cases ha2 : a = i
    · subst ha2
      by_cases hb2 : b = a
      · subst hb2
        exact absurd rfl hab
      · rw [Function.update_same, hruns, Function.update_noteq hb2]
        exact hc a b hab
    · rw [Function.update_noteq ha2]
      by_cases hb2 : b = i
      · subst hb2
        rw [Function.update_same, hruns]
        exact hc a b hab
      · rw [Function.update_noteq hb2]
        exact hc a b hab
  · intro j hj
    dsimp only at hj ⊢
    by_cases hij : j = i
    · subst hij
      rw [Function.update_same, hruns] at hj
      rcases hd j hj with hv | hup
      · exact Or.inl hv
      · exact absurd hup hnot
    · rw [Function.update_noteq hij] at hj
      rcases hd j hj with hv | hup
      · exact Or.inl hv
      · rw [Function.update_noteq hij]
        exact Or.inr hup

theorem once_update_commit (target : Int) (s : SysState) (i : Nat) (X : Inst)
    (L : Option Nat)
    (hruns : X.runs = (s.insts i).runs)
    (ho : OnceInv target s) :
    OnceInv target { ver := target, lockHolder := L,
                     insts := Function.update s.insts i X } := by
  obtain ⟨hb, hc, hd⟩ := ho
  refine ⟨?_, ?_, ?_⟩
  · intro j
    dsimp only
    by_cases hij : j = i
    · subst hij
      rw [Function.update_same, hruns]
      exact hb j
    · rw [Function.update_noteq hij]
      exact hb j
  · intro a b hab
    dsimp only
    by_cases ha2 : a = i
    · subst ha2
      by_cases hb2 : b = a
      · subst hb2
        exact absurd rfl hab
      · rw [Function.update_same, hruns, Function.update_noteq hb2]
        exact hc a b hab
    · rw [Function.update_noteq ha2]
      by_cases hb2 : b = i
      · subst hb2
        rw [Function.update_same, hruns]
        exact hc a b hab
      · rw [Function.update_noteq hb2]
        exact hc a b hab
  · intro j hj
    exact Or.inl le_rfl

theorem once_update_increment (target : Int) (s : SysState) (i : Nat)
    (hp : (s.insts i).phase = Phase.doubleCheck) (hv : ¬ target ≤ s.ver)
    (hm : MutexInv s) (ho : OnceInv target s) :
    OnceInv target
      { ver := s.ver, lockHolder := s.lockHolder,
        insts := Function.update s.insts i
          { phase := Phase.upgrading, runs := (s.insts i).runs + 1 } } := by
  obtain ⟨hb, hc, hd⟩ := ho
  have hz : ∀ j, (s.insts j).runs = 0 := by
    intro j
    by_cases h1 : (s.insts j).runs = 1
    · rcases hd j h1 with hv2 | hup
      · exact absurd hv2 hv
      · have h2 := hm j (Or.inr hup)
        have h3 := hm i (Or.inl hp)
        rw [h2] at h3
        simp only [Option.some.injEq] at h3
        rw [h3] at hup
        rw [hp] at hup
        cases hup
    · have h4 := hb j
      omega
  refine ⟨?_, ?_, ?_⟩
  · intro j
    dsimp only
    by_cases hij : j = i
    · subst hij
      rw [Function.update_same]
      dsimp only
      rw [hz j]
    · rw [Function.update_noteq hij]
      exact hb j
  · intro a b hab
    dsimp only
    by_cases ha2 : a = i
    · subst ha2
      right
      rw [Function.update_noteq (Ne.symm hab)]
      exact hz b
    · left
      rw [Function.update_noteq ha2]
      exact hz a
  · intro j hj
    dsimp only at hj ⊢
    by_cases hij : j = i
    · subst hij
      rw [Function.update_same]
      exact Or.inr rfl
    · rw [Function.update_noteq hij] at hj
      rw [hz j] at hj
      exact absurd hj (by decide)

theorem stepInst_once (target : Int) (cbOk txOk : Nat → Bool)
    (hcb : ∀ k, cbOk k = true) (htx : ∀ k, txOk k = true)
    (s : SysState) (i : Nat)
    (hm : MutexInv s) (ho : OnceInv target s) :
    OnceInv target (stepInst target cbOk txOk s i) := by
  unfold stepInst
  dsimp only
  cases hp : (s.insts i).phase with
  | start =>
    dsimp only
    split <;>
      · refine once_update_same target s i _ _ ?_ ?_ ho
        · rfl
        · rw [hp]; simp
  | tryLock =>
    dsimp only
    split <;>
      · refine once_update_same target s i _ _ ?_ ?_ ho
        · rfl
        · rw [hp]; simp
  | doubleCheck =>
    dsimp only
    split
    next hv =>
      refine once_update_same target s i _ _ ?_ ?_ ho
      · rfl
      · rw [hp]; simp
    next hv => exact once_update_increment target s i hp hv hm ho
  | upgrading =>
    dsimp only
    rw [hcb i]
    rw [if_pos rfl]
    rw [htx i]
    rw [if_pos rfl]
    refine once_update_commit target s i _ _ ?_ ho
    rfl
  | waiting =>
    dsimp only
    split
    · refine once_update_same target s i _ _ ?_ ?_ ho
      · rfl
      · rw [hp]; simp
    · exact ho
  | done ok =>
    dsimp only
    exact ho

theorem timeoutInst_once (target : Int) (s : SysState) (i : Nat)
    (ho : OnceInv target s) : OnceInv target (timeoutInst s i) := by
  unfold timeoutInst
  cases hp : (s.insts i).phase with
  | waiting =>
    dsimp only
    refine once_update_same target s i _ _ ?_ ?_ ho
    · rfl
    · rw [hp]; simp
  | start => exact ho
  | tryLock => exact ho
  | doubleCheck => exact ho
  | upgrading => exact ho
  | done ok => exact ho

theorem runSched_pres (target : Int) (cbOk txOk : Nat → Bool) :
    ∀ (events : List Event) (s : SysState),
      MutexInv s →
      ((∀ k, cbOk k = true) → (∀ k, txOk k = true) → OnceInv target s) →
      MutexInv (runSched target cbOk txOk events s) ∧
      ((∀ k, cbOk k = true) → (∀ k, txOk k = true) →
        OnceInv target (runSched target cbOk txOk events s)) := by
  intro events
  induction events with
  | nil => exact fun s hm ho => ⟨hm, ho⟩
  | cons e es ih =>
    intro s hm ho
    cases e with
    | run i =>
      exact ih (stepInst target cbOk txOk s i)
        (stepInst_mutex target cbOk txOk s i hm)
        (fun hcb htx =>
          stepInst_once target cbOk txOk hcb htx s i hm (ho hcb htx))
    | timeout i =>
      exact ih (timeoutInst s i) (timeoutInst_mutex s i hm)
        (fun hcb htx => timeoutInst_once target s i (ho hcb htx))

theorem initSys_mutex (v : Int) : MutexInv (initSys v) := by
  intro i h
  rcases h with h | h <;> cases h

theorem initSys_once (target v : Int) : OnceInv target (initSys v) := by
  refine ⟨fun i => ?_, fun i j hij => Or.inl ?_, fun i h => ?_⟩
  · exact Nat.zero_le 1
  · rfl
  · cases h

/-- C9 counterexample: with two concurrent invocations for the same target,
the migration callback body executes twice (once in each instance) when the
first upgrade attempt fails — in the first run because instance 0's
callback errors, in the second because instance 0's version UPDATE/Commit
errors after its callback succeeded (so even with every callback execution
succeeding the body runs twice). The advisory lock alone does not bound the
total number of executions, only simultaneous ones. -/
theorem mutual_exclusion_counterexample :
    (((runSched 1 ceCbOk (fun _ => true) ceEvents (initSys 0)).insts 0).runs = 1 ∧
     ((runSched 1 ceCbOk (fun _ => true) ceEvents (initSys 0)).insts 1).runs = 1) ∧
    (((runSched 1 (fun _ => true) ceTxOk ceEvents (initSys 0)).insts 0).runs = 1 ∧
     ((runSched 1 (fun _ => true) ceTxOk ceEvents (initSys 0)).insts 1).runs = 1) := by
  refine ⟨⟨?_, ?_⟩, ?_, ?_⟩ <;> rfl

/-- C9 amended: at most one instance executes the migration callback at any
time (two instances in the callback-executing phase coincide, enforced by
the advisory lock), and the callback body executes at most once in total
across all concurrent invocations provided every upgrade attempt that runs
the callback also commits: the callback succeeds (cbOk) and so do the
version UPDATE and the Commit that follow it (txOk). Both conditions are
necessary: any failure after the callback starts — a callback error, an
UPDATE error or a Commit error — rolls back the transaction and releases
the lock with the version still below the target, so a concurrent peer may
acquire the lock, pass the double check and run the callback again. -/
theorem mutual_exclusion_amended (target : Int) (cbOk txOk : Nat → Bool)
    (events : List Event) (v : Int) :
    (∀ i j,
      ((runSched target cbOk txOk events (initSys v)).insts i).phase =
        Phase.upgrading →
      ((runSched target cbOk txOk events (initSys v)).insts j).phase =
        Phase.upgrading →
      i = j) ∧
    ((∀ k, cbOk k = true) → (∀ k, txOk k = true) →
      (∀ i, ((runSched target cbOk txOk events (initSys v)).insts i).runs ≤ 1) ∧
      (∀ i j, i ≠ j →
        ((runSched target cbOk txOk events (initSys v)).insts i).runs = 0 ∨
        ((runSched target cbOk txOk events (initSys v)).insts j).runs = 0)) := by
  obtain ⟨hm, ho⟩ := runSched_pres target cbOk txOk events (initSys v)
    (initSys_mutex v) (fun _ _ => initSys_once target v)
  constructor
  · intro i j hi hj
    have h1 := hm i (Or.inr hi)
    have h2 := hm j (Or.inr hj)
    rw [h1] at h2
    exact Option.some.inj h2
  · intro hcb htx
    obtain ⟨hb, hc, _⟩ := ho hcb htx
    exact ⟨hb, hc⟩

/-- C9 witness for the amended claim: a concrete concurrent schedule in
which both instances contend and every callback and every commit succeeds;
the callback runs at most once. -/
theorem mutual_exclusion_amended_witness :
    (∀ i, ((runSched 1 (fun _ => true) (fun _ => true) ceEvents
      (initSys 0)).insts i).runs ≤ 1) ∧
    (∀ i j, i ≠ j →
      ((runSched 1 (fun _ => true) (fun _ => true) ceEvents
        (initSys 0)).insts i).runs = 0 ∨
      ((runSched 1 (fun _ => true) (fun _ => true) ceEvents
        (initSys 0)).insts j).runs = 0) :=
  (mutual_exclusion_amended 1 (fun _ => true) (fun _ => true) ceEvents 0).2
    (fun k => rfl) (fun k => rfl)
